import Mathlib

/-!
Shallow embedding of the external-memory preparation stage of the
road-network extractor (`src/extractor/extraction_containers.cpp`).

Node identifiers, way identifiers and name indices are embedded as `Nat`;
signed 32-bit coordinates as `Int`; C++ `double` values as `ℚ` (the weight
formulas of the source involve only field operations and `std::floor`, which
are exact on the rationals).  External-memory `stxxl::sort` is embedded as
`List.insertionSort` with the comparator of the source; `std::unique` as an
adjacent-duplicate collapse.  The merge-join loops of the source are embedded
as recursive functions over the two cursor lists.
-/

/- ### Data model -/

/-- Fatal error kinds of the preparation pipeline (spec 7): storage
exhaustion during an external sort or scan, and the invalid weight
descriptor. -/
inductive PipelineFatalError where
  | storageExhaustion
  | invalidWeightDescriptor
  deriving DecidableEq, Repr

/-- How a call to `PrepareData` terminates as observed by its caller: either
a plain normal return (possibly carrying output data) or a failure signal
(an exception escaping the function). -/
inductive PrepareOutcome (α : Type) where
  | normalReturn (result : Option α)
  | failureSignal (err : PipelineFatalError)

/-- Embedding of `ExtractionContainers::PrepareData` (lines 76-103): the
whole pipeline body runs inside a `try` block; the `catch` clause at lines
99-102 catches every `std::exception`, prints its message to `stderr`, and
the function then returns normally with no output produced.  The body is
abstracted as an `Except` value: `Except.error` is a fatal error thrown by
one of the pipeline stages. -/
def PrepareData (α : Type) (body : Except PipelineFatalError α) : PrepareOutcome α :=
  match body with
  | Except.ok v => PrepareOutcome.normalReturn (some v)
  | Except.error _ => PrepareOutcome.normalReturn none

/-- A parsed map node (`ExternalMemoryNode`): an OSM id and fixed-point
coordinates.  The trailing flag bytes of the record play no role in the
claims and are omitted. -/
structure ExternalMemoryNode where
  node_id : Nat
  lat : Int
  lon : Int
  deriving DecidableEq, Repr

/-- The output part of an edge record (`NodeBasedEdge`), the bytes written
by `WriteEdges`. -/
structure NodeBasedEdge where
  source : Nat
  target : Nat
  name_id : Nat
  weight : Int
  deriving DecidableEq, Repr

/-- The weight descriptor tag of an edge.  Modelled from the spec: the enum
itself lives in a header that is not under `src/`; the spec (4.4, 7) names
the three recognized variants and speaks of "any other type", embedded here
as the extra variant `INVALID`. -/
inductive WeightType where
  | SPEED
  | EDGE_DURATION
  | WAY_DURATION
  | INVALID
  deriving DecidableEq, Repr

/-- The weight descriptor of an edge (`InternalExtractorEdge::WeightData`):
a tag plus the speed (km/h) and duration fields read by the weight lambda. -/
structure WeightData where
  type : WeightType
  speed : ℚ
  duration : ℚ
  deriving DecidableEq, Repr

/-- A fixed-point coordinate pair. -/
structure Coordinate where
  lat : Int
  lon : Int
  deriving DecidableEq, Repr

/-- The sentinel for an unresolved coordinate component:
`std::numeric_limits<int>::min()`. -/
def INT_MIN : Int := -(2 ^ 31)

/-- An edge as held by the containers (`InternalExtractorEdge`): the output
record plus the resolver scratch fields. -/
structure InternalExtractorEdge where
  result : NodeBasedEdge
  source_coordinate : Coordinate
  weight_data : WeightData
  deriving DecidableEq, Repr

/-- The per-way endpoint record (`FirstAndLastSegmentOfWay`).  Modelled from
the spec (3): the struct lives in a header not under `src/`; fields are as
named by the spec and used at lines 397-406 of the source. -/
structure FirstAndLastSegmentOfWay where
  way_id : Nat
  first_segment_source_id : Nat
  first_segment_target_id : Nat
  last_segment_source_id : Nat
  last_segment_target_id : Nat
  deriving DecidableEq, Repr

/-- A turn restriction payload (`TurnRestriction`).  Modelled from the spec
(3): the struct lives in a header not under `src/`; per the spec it carries
`from: (way, node)`, `via: node`, `to: (way, node)` and the `is_only` flag. -/
structure TurnRestriction where
  from_way : Nat
  from_node : Nat
  via_node : Nat
  to_way : Nat
  to_node : Nat
  is_only : Bool
  deriving DecidableEq, Repr

/-- The container wrapping a restriction payload
(`InputRestrictionContainer`); only its `restriction` member is read by the
source file. -/
structure InputRestrictionContainer where
  restriction : TurnRestriction
  deriving DecidableEq, Repr

/-- The sentinel node id marking an unresolved reference (spec 6.3: the
maximum-value unsigned). -/
def SPECIAL_NODEID : Nat := 2 ^ 32 - 1

/- ### Name index writer (`WriteNames`, lines 105-137) -/

/-- The clamped length of one name: `std::min(length, 255u)` (lines
115-116). -/
def clampedLength (s : List Nat) : Nat := min s.length 255

/-- The length table accumulated by the first loop of `WriteNames` (lines
112-119). -/
def nameLengths (names : List (List Nat)) : List Nat := names.map clampedLength

/-- The 4-byte total-length field of the name file: the running sum of the
clamped lengths (line 118). -/
def totalLength (names : List (List Nat)) : Nat := (nameLengths names).sum

/-- The trailing blob of the name file: each name's first
`min(length, 255)` bytes, concatenated in list order (lines 127-132). -/
def nameBlob (names : List (List Nat)) : List Nat :=
  (names.map (fun s => s.take (clampedLength s))).flatten

/-- Modelled from the spec: the `RangeTable` layout and lookup come from
`data_structures/range_table.hpp`, which is not under `src/`.  Per spec 4.6
the table built from the clamped lengths maps index `i` to the byte range
starting at the sum of the clamped lengths of earlier names.  This is the
start offset. -/
def rangeTableOffset (names : List (List Nat)) (i : Nat) : Nat :=
  ((nameLengths names).take i).sum

/-- Modelled from the spec: the byte-range length the range table yields for
index `i` is the clamped length of the name at index `i` (spec 4.6). -/
def rangeTableLen (names : List (List Nat)) (i : Nat) : Nat :=
  (nameLengths names).getD i 0

/-- Reading back name `i` from the name file: take the byte range the range
table yields for `i` out of the concatenated blob. -/
def lookupName (names : List (List Nat)) (i : Nat) : List Nat :=
  ((nameBlob names).drop (rangeTableOffset names i)).take (rangeTableLen names i)

/- ### Node preparation and writer (`PrepareNodes`, lines 139-160 and
`WriteNodes`, lines 287-328) -/

/-- Embedding of `std::unique` (line 149): collapse adjacent equal
elements, keeping the first of each run. -/
def uniqueAdj : List Nat → List Nat
  | [] => []
  | [a] => [a]
  | a :: b :: rest => if a = b then uniqueAdj (b :: rest) else a :: uniqueAdj (b :: rest)

/-- The comparator `ExternalMemoryNodeSTXXLCompare` orders node records by
id. -/
def nodeLe (a b : ExternalMemoryNode) : Prop := a.node_id ≤ b.node_id

instance : DecidableRel nodeLe := fun a b => inferInstanceAs (Decidable (a.node_id ≤ b.node_id))

instance : IsTotal ExternalMemoryNode nodeLe := ⟨fun a b => Nat.le_total a.node_id b.node_id⟩

instance : IsTrans ExternalMemoryNode nodeLe := ⟨fun _ _ _ => Nat.le_trans⟩

/-- `PrepareNodes`, used-node half (lines 141-152): sort the used ids and
erase duplicates. -/
def prepareUsedNodeIds (used : List Nat) : List Nat :=
  uniqueAdj (List.insertionSort (fun a b => a ≤ b) used)

/-- `PrepareNodes`, all-nodes half (lines 154-159): sort all node records by
id. -/
def prepareAllNodes (nodes : List ExternalMemoryNode) : List ExternalMemoryNode :=
  List.insertionSort nodeLe nodes

/-- The merge-join of `WriteNodes` (lines 295-316): walk the sorted used-id
list and the sorted node list; on equality write the node record and advance
both cursors, otherwise advance the smaller side.  The returned list is the
sequence of records written to the output file. -/
def writeNodesLoop : List Nat → List ExternalMemoryNode → List ExternalMemoryNode
  | [], _ => []
  | _ :: _, [] => []
  | u :: us, n :: ns =>
    if u < n.node_id then writeNodesLoop us (n :: ns)
    else if n.node_id < u then writeNodesLoop (u :: us) ns
    else n :: writeNodesLoop us ns
  termination_by us ns => us.length + ns.length

/-- The records `WriteNodes` emits after `PrepareNodes` ran on the raw
input. -/
def writtenNodes (used : List Nat) (nodes : List ExternalMemoryNode) : List ExternalMemoryNode :=
  writeNodesLoop (prepareUsedNodeIds used) (prepareAllNodes nodes)

/-- The back-patched `node_count` field (`number_of_used_nodes`, lines
289-323): the count of records written. -/
def number_of_used_nodes (used : List Nat) (nodes : List ExternalMemoryNode) : Nat :=
  (writtenNodes used nodes).length

/- ### Edge weight computation (`PrepareEdges`, lines 162-256) and edge
writer (`WriteEdges`, lines 258-285) -/

/-- The weight lambda of `PrepareEdges` (lines 233-247).  The `default` arm
of the `switch` at line 244 constructs `osrm::exception("invalid weight
type")` as a discarded temporary - there is no `throw` - so control falls
through to `return -1.0`. -/
def edgeWeightLambda (distance : ℚ) (data : WeightData) : ℚ :=
  match data.type with
  | WeightType.EDGE_DURATION => data.duration * 10
  | WeightType.WAY_DURATION => data.duration * 10
  | WeightType.SPEED => (distance * 10) / (data.speed / 3.6)
  | WeightType.INVALID => -1

/-- Line 249: `std::max(1, (int)std::floor(weight + .5))`. -/
def integerWeight (w : ℚ) : Int := max 1 (Int.floor (w + 1 / 2))

/-- Replace the `weight` field of the embedded result record (line 250). -/
def withResultWeight (e : InternalExtractorEdge) (w : Int) : InternalExtractorEdge :=
  ⟨⟨e.result.source, e.result.target, e.result.name_id, w⟩, e.source_coordinate, e.weight_data⟩

/-- The body of the equal-ids branch of the weight loop (lines 224-251): if
both components of the source coordinate differ from `INT_MIN`, compute the
distance to the target node's coordinate, run the weight lambda, round and
clamp; otherwise leave the edge untouched.  `dist` is the black-box
`coordinate_calculation::euclidean_distance`. -/
def setEdgeWeight (dist : Int → Int → Int → Int → ℚ)
    (e : InternalExtractorEdge) (n : ExternalMemoryNode) : InternalExtractorEdge :=
  if e.source_coordinate.lat ≠ INT_MIN ∧ e.source_coordinate.lon ≠ INT_MIN then
    withResultWeight e
      (integerWeight
        (edgeWeightLambda
          (dist e.source_coordinate.lat e.source_coordinate.lon n.lat n.lon)
          e.weight_data))
  else e

/-- The weight-computation merge-join of `PrepareEdges` (lines 208-253):
edges sorted by target against nodes sorted by id.  An edge whose target is
smaller than the current node id is skipped (the FIXME at line 214); a node
smaller than the current target is skipped; on equality the weight is
computed and only the edge cursor advances. -/
def computeWeights (dist : Int → Int → Int → Int → ℚ) :
    List InternalExtractorEdge → List ExternalMemoryNode → List InternalExtractorEdge
  | [], _ => []
  | e :: es, [] => e :: es
  | e :: es, n :: ns =>
    if e.result.target < n.node_id then e :: computeWeights dist es (n :: ns)
    else if n.node_id < e.result.target then computeWeights dist (e :: es) ns
    else setEdgeWeight dist e n :: computeWeights dist es (n :: ns)
  termination_by es ns => es.length + ns.length

/-- The writer loop of `WriteEdges` (lines 268-275): write `edge.result` for
every edge whose weight is positive. -/
def writeEdgesLoop : List InternalExtractorEdge → List NodeBasedEdge
  | [] => []
  | e :: es =>
    if 0 < e.result.weight then e.result :: writeEdgesLoop es else writeEdgesLoop es

/-- The back-patched `edge_count` field (`number_of_used_edges`, lines
263-281). -/
def number_of_used_edges (es : List InternalExtractorEdge) : Nat :=
  (writeEdgesLoop es).length

/- ### Restriction resolution, Pass A (`PrepareRestrictions`, lines
356-411) and restriction writer (`WriteRestrictions`, lines 330-354) -/

/-- The equal-way-ids body of the fix-restriction-starts loop (lines
395-406): if the via node is the first segment's source, the `from` node
becomes the first segment's target; else if the via node is the last
segment's target, the `from` node becomes the last segment's source; else
the restriction is unchanged. -/
def applyFromFix (w : FirstAndLastSegmentOfWay) (rc : InputRestrictionContainer) :
    InputRestrictionContainer :=
  if w.first_segment_source_id = rc.restriction.via_node then
    ⟨⟨rc.restriction.from_way, w.first_segment_target_id, rc.restriction.via_node,
      rc.restriction.to_way, rc.restriction.to_node, rc.restriction.is_only⟩⟩
  else if w.last_segment_target_id = rc.restriction.via_node then
    ⟨⟨rc.restriction.from_way, w.last_segment_source_id, rc.restriction.via_node,
      rc.restriction.to_way, rc.restriction.to_node, rc.restriction.is_only⟩⟩
  else rc

/-- The fix-restriction-starts merge-join (lines 375-408): endpoint records
sorted by way id against restrictions sorted by `from.way`.  When the way
ids disagree the smaller cursor advances (a skipped restriction is kept
unchanged); on equality the fix is applied and only the restriction cursor
advances. -/
def fixFromLoop :
    List FirstAndLastSegmentOfWay → List InputRestrictionContainer →
      List InputRestrictionContainer
  | _, [] => []
  | [], r :: rs => r :: rs
  | w :: ws, r :: rs =>
    if w.way_id < r.restriction.from_way then fixFromLoop ws (r :: rs)
    else if r.restriction.from_way < w.way_id then r :: fixFromLoop (w :: ws) rs
    else applyFromFix w r :: fixFromLoop (w :: ws) rs
  termination_by ws rs => ws.length + rs.length

/-- The comparator `FirstAndLastSegmentOfWayStxxlCompare` orders endpoint
records by way id. -/
def wayLe (a b : FirstAndLastSegmentOfWay) : Prop := a.way_id ≤ b.way_id

instance : DecidableRel wayLe := fun a b => inferInstanceAs (Decidable (a.way_id ≤ b.way_id))

instance : IsTotal FirstAndLastSegmentOfWay wayLe := ⟨fun a b => Nat.le_total a.way_id b.way_id⟩

instance : IsTrans FirstAndLastSegmentOfWay wayLe := ⟨fun _ _ _ => Nat.le_trans⟩

/-- The comparator `CmpRestrictionContainerByFrom` orders restriction
containers by `from.way`. -/
def restrictionFromLe (a b : InputRestrictionContainer) : Prop :=
  a.restriction.from_way ≤ b.restriction.from_way

instance : DecidableRel restrictionFromLe := fun a b =>
  inferInstanceAs (Decidable (a.restriction.from_way ≤ b.restriction.from_way))

instance : IsTotal InputRestrictionContainer restrictionFromLe :=
  ⟨fun a b => Nat.le_total a.restriction.from_way b.restriction.from_way⟩

instance : IsTrans InputRestrictionContainer restrictionFromLe := ⟨fun _ _ _ => Nat.le_trans⟩

/-- Pass A of `PrepareRestrictions` (lines 358-408): sort the endpoint
records by way id, sort the restrictions by `from.way`, then run the
fix-restriction-starts merge-join. -/
def passA (ws : List FirstAndLastSegmentOfWay) (rs : List InputRestrictionContainer) :
    List InputRestrictionContainer :=
  fixFromLoop (List.insertionSort wayLe ws) (List.insertionSort restrictionFromLe rs)

/-- The writer loop of `WriteRestrictions` (lines 340-349): serialize the
`restriction` payload of every container whose `from.node` and `to.node`
both differ from `SPECIAL_NODEID`. -/
def writeRestrictionsLoop : List InputRestrictionContainer → List TurnRestriction
  | [] => []
  | rc :: rest =>
    if rc.restriction.from_node ≠ SPECIAL_NODEID ∧ rc.restriction.to_node ≠ SPECIAL_NODEID then
      rc.restriction :: writeRestrictionsLoop rest
    else writeRestrictionsLoop rest

/-- The back-patched restriction count (`written_restriction_count`, lines
334-351). -/
def written_restriction_count (rs : List InputRestrictionContainer) : Nat :=
  (writeRestrictionsLoop rs).length

/- ### Concrete inputs used by the witnesses -/

/-- Claim C4 witness: way 10 with endpoints (first 100 -> 101, last
102 -> 103) and a restriction from way 10 via node 100 resolves
`from.node` to 101. -/
def c4Way : FirstAndLastSegmentOfWay := ⟨10, 100, 101, 102, 103⟩

/-- Restriction for the C4 witness: `from.way = 10`, via node 100,
unresolved node fields. -/
def c4Restriction : InputRestrictionContainer :=
  ⟨⟨10, SPECIAL_NODEID, 100, 11, SPECIAL_NODEID, false⟩⟩

/-- Distance function for the C7 witness. -/
def c7Dist : Int → Int → Int → Int → ℚ := fun _ _ _ _ => 111

/-- Edge for the C7 witness: duration 5, resolved source coordinate,
target 2. -/
def c7Edge : InternalExtractorEdge :=
  ⟨⟨1, 2, 0, 0⟩, ⟨0, 0⟩, ⟨WeightType.EDGE_DURATION, 0, 5⟩⟩

/-- Node for the C7 witness: id 2. -/
def c7Node : ExternalMemoryNode := ⟨2, 1000000, 0⟩

/-- Edge for the C10 witness and the C2 evaluation: weight type outside the
three recognized variants, resolved source coordinate, target 2. -/
def invalidWeightEdge : InternalExtractorEdge :=
  ⟨⟨1, 2, 0, 0⟩, ⟨0, 0⟩, ⟨WeightType.INVALID, 0, 0⟩⟩

/-- Node for the C10 witness and the C2 evaluation: id 2. -/
def invalidWeightNode : ExternalMemoryNode := ⟨2, 3, 4⟩

/-- Distance function for the C10 witness and the C2 evaluation. -/
def zeroDistance : Int → Int → Int → Int → ℚ := fun _ _ _ _ => 0

/-- Edge for the C8 witness: target 99, initial weight 0. -/
def c8Edge : InternalExtractorEdge :=
  ⟨⟨1, 99, 0, 0⟩, ⟨0, 0⟩, ⟨WeightType.SPEED, 36, 0⟩⟩

/-- Node for the C8 witness: id 1, so node 99 is absent. -/
def c8Node : ExternalMemoryNode := ⟨1, 0, 0⟩

/- ### Claim C1 -/

/-- Claim C1 counterexample: a fatal storage-exhaustion error arising inside
the pipeline body is swallowed by the catch-all of `PrepareData`; the call
returns normally (with no output) and no failure signal reaches the caller,
contradicting the claim at this concrete input. -/
theorem prepareData_counterexample :
    PrepareData Unit (Except.error PipelineFatalError.storageExhaustion) =
      PrepareOutcome.normalReturn none ∧
    ∀ err, PrepareData Unit (Except.error PipelineFatalError.storageExhaustion) ≠
      PrepareOutcome.failureSignal err := by
  refine ⟨rfl, ?_⟩
  intro err h
  exact PrepareOutcome.noConfusion h

/-- Claim C1 (amended): for every fatal error arising during preparation,
`PrepareData` catches it, prints it to `stderr` and returns normally with no
output produced; no failure signal is surfaced to the caller, and there is
no partial recovery (the pipeline body is not resumed). -/
theorem prepareData_swallows_fatal_errors (α : Type) (e : PipelineFatalError) :
    PrepareData α (Except.error e) = PrepareOutcome.normalReturn none ∧
    ∀ err, PrepareData α (Except.error e) ≠ PrepareOutcome.failureSignal err := by
  refine ⟨rfl, ?_⟩
  intro err h
  exact PrepareOutcome.noConfusion h

/- ### Claim C5 -/

/-- Claim C5: the restrictions file contains, after the fingerprint and the
count field, exactly the `TurnRestriction` payloads of those restrictions
whose `from.node` and `to.node` both differ from `SPECIAL_NODEID`, in
container order, and the back-patched count equals the number of payloads
written; every written payload satisfies both conditions. -/
theorem writeRestrictions_exactly_resolved (rs : List InputRestrictionContainer) :
    writeRestrictionsLoop rs =
      (rs.filter (fun rc =>
        decide (rc.restriction.from_node ≠ SPECIAL_NODEID ∧
          rc.restriction.to_node ≠ SPECIAL_NODEID))).map
        (fun rc => rc.restriction) ∧
    written_restriction_count rs = (writeRestrictionsLoop rs).length ∧
    ∀ t ∈ writeRestrictionsLoop rs,
      t.from_node ≠ SPECIAL_NODEID ∧ t.to_node ≠ SPECIAL_NODEID := by
  have hfilter : writeRestrictionsLoop rs =
      (rs.filter (fun rc =>
        decide (rc.restriction.from_node ≠ SPECIAL_NODEID ∧
          rc.restriction.to_node ≠ SPECIAL_NODEID))).map
        (fun rc => rc.restriction) := by
    induction rs with
    | nil => rfl
    | cons rc rest ih =>
      by_cases h : rc.restriction.from_node ≠ SPECIAL_NODEID ∧
          rc.restriction.to_node ≠ SPECIAL_NODEID
      · simp [writeRestrictionsLoop, h, ih, List.filter_cons]
      · simp [writeRestrictionsLoop, h, ih, List.filter_cons]
  refine ⟨hfilter, rfl, ?_⟩
  intro t ht
  rw [hfilter] at ht
  simp only [List.mem_map, List.mem_filter, decide_eq_true_eq] at ht
  obtain ⟨rc, ⟨_, hcond⟩, hteq⟩ := ht
  exact hteq ▸ hcond

/- ### Shared facts about `applyFromFix` -/

/-- The `from.node` field produced by the equal-way-ids body, as a single
conditional expression. -/
theorem applyFromFix_from_node (w : FirstAndLastSegmentOfWay) (rc : InputRestrictionContainer) :
    (applyFromFix w rc).restriction.from_node =
      (if rc.restriction.via_node = w.first_segment_source_id then w.first_segment_target_id
       else if rc.restriction.via_node = w.last_segment_target_id then w.last_segment_source_id
       else rc.restriction.from_node) := by
  unfold applyFromFix
  by_cases h1 : w.first_segment_source_id = rc.restriction.via_node
  · rw [if_pos h1, if_pos h1.symm]
  · have h1b : ¬rc.restriction.via_node = w.first_segment_source_id := fun hh => h1 hh.symm
    rw [if_neg h1, if_neg h1b]
    by_cases h2 : w.last_segment_target_id = rc.restriction.via_node
    · rw [if_pos h2, if_pos h2.symm]
    · have h2b : ¬rc.restriction.via_node = w.last_segment_target_id := fun hh => h2 hh.symm
      rw [if_neg h2, if_neg h2b]

/-- The equal-way-ids body touches only `from.node`: every other restriction
field is unchanged. -/
theorem applyFromFix_fields (w : FirstAndLastSegmentOfWay) (rc : InputRestrictionContainer) :
    (applyFromFix w rc).restriction.from_way = rc.restriction.from_way ∧
    (applyFromFix w rc).restriction.via_node = rc.restriction.via_node ∧
    (applyFromFix w rc).restriction.to_way = rc.restriction.to_way ∧
    (applyFromFix w rc).restriction.to_node = rc.restriction.to_node ∧
    (applyFromFix w rc).restriction.is_only = rc.restriction.is_only := by
  unfold applyFromFix
  by_cases h1 : w.first_segment_source_id = rc.restriction.via_node
  · rw [if_pos h1]
    exact ⟨rfl, rfl, rfl, rfl, rfl⟩
  · rw [if_neg h1]
    by_cases h2 : w.last_segment_target_id = rc.restriction.via_node
    · rw [if_pos h2]
      exact ⟨rfl, rfl, rfl, rfl, rfl⟩
    · rw [if_neg h2]
      exact ⟨rfl, rfl, rfl, rfl, rfl⟩

/- ### Claim C4 -/

/-- Claim C4: in Pass A, when the cursor meets a restriction whose
`from.way` equals the way id of the current endpoint record, the emitted
restriction has `from.node` set to `first_segment_target_id` if the via node
equals `first_segment_source_id`, else to `last_segment_source_id` if the
via node equals `last_segment_target_id`, and otherwise keeps its previous
`from.node`; all other restriction fields are unchanged and only the
restriction cursor advances. -/
theorem fixFromLoop_match_behavior (w : FirstAndLastSegmentOfWay)
    (ws : List FirstAndLastSegmentOfWay) (r : InputRestrictionContainer)
    (rs : List InputRestrictionContainer)
    (h : r.restriction.from_way = w.way_id) :
    ∃ r₂, fixFromLoop (w :: ws) (r :: rs) = r₂ :: fixFromLoop (w :: ws) rs ∧
      r₂.restriction.from_node =
        (if r.restriction.via_node = w.first_segment_source_id then
          w.first_segment_target_id
        else if r.restriction.via_node = w.last_segment_target_id then
          w.last_segment_source_id
        else r.restriction.from_node) ∧
      r₂.restriction.from_way = r.restriction.from_way ∧
      r₂.restriction.via_node = r.restriction.via_node ∧
      r₂.restriction.to_way = r.restriction.to_way ∧
      r₂.restriction.to_node = r.restriction.to_node := by
  refine ⟨applyFromFix w r, ?_, applyFromFix_from_node w r, (applyFromFix_fields w r).1,
    (applyFromFix_fields w r).2.1, (applyFromFix_fields w r).2.2.1,
    (applyFromFix_fields w r).2.2.2.1⟩
  simp only [fixFromLoop]
  simp [h, lt_irrefl]


/-- Claim C4 witness: the match behavior at the concrete input above. -/
theorem fixFromLoop_match_behavior_witness :
    c4Restriction.restriction.from_way = c4Way.way_id ∧
    ∃ r₂, fixFromLoop [c4Way] [c4Restriction] = r₂ :: fixFromLoop [c4Way] [] ∧
      r₂.restriction.from_node =
        (if c4Restriction.restriction.via_node = c4Way.first_segment_source_id then
          c4Way.first_segment_target_id
        else if c4Restriction.restriction.via_node = c4Way.last_segment_target_id then
          c4Way.last_segment_source_id
        else c4Restriction.restriction.from_node) ∧
      r₂.restriction.from_way = c4Restriction.restriction.from_way ∧
      r₂.restriction.via_node = c4Restriction.restriction.via_node ∧
      r₂.restriction.to_way = c4Restriction.restriction.to_way ∧
      r₂.restriction.to_node = c4Restriction.restriction.to_node :=
  ⟨rfl, fixFromLoop_match_behavior c4Way [] c4Restriction [] rfl⟩

/- ### Shared facts about the weight loop -/

/-- On equal target and node ids the weight loop emits `setEdgeWeight` and
advances only the edge cursor. -/
theorem computeWeights_cons_match (dist : Int → Int → Int → Int → ℚ)
    (e : InternalExtractorEdge) (es : List InternalExtractorEdge)
    (n : ExternalMemoryNode) (ns : List ExternalMemoryNode)
    (h : e.result.target = n.node_id) :
    computeWeights dist (e :: es) (n :: ns) =
      setEdgeWeight dist e n :: computeWeights dist es (n :: ns) := by
  have h1 : ¬e.result.target < n.node_id := by rw [h]; exact lt_irrefl _
  have h2 : ¬n.node_id < e.result.target := by rw [h]; exact lt_irrefl _
  simp only [computeWeights]
  rw [if_neg h1, if_neg h2]

/-- With both source-coordinate components resolved, `setEdgeWeight` stores
the rounded, clamped weight computed by the lambda. -/
theorem setEdgeWeight_resolved (dist : Int → Int → Int → Int → ℚ)
    (e : InternalExtractorEdge) (n : ExternalMemoryNode)
    (hlat : e.source_coordinate.lat ≠ INT_MIN)
    (hlon : e.source_coordinate.lon ≠ INT_MIN) :
    setEdgeWeight dist e n =
      withResultWeight e
        (integerWeight
          (edgeWeightLambda
            (dist e.source_coordinate.lat e.source_coordinate.lon n.lat n.lon)
            e.weight_data)) := by
  unfold setEdgeWeight
  rw [if_pos ⟨hlat, hlon⟩]

/-- Rounding and clamping the fall-through value `-1.0` of the weight lambda
yields exactly 1. -/
theorem integerWeight_neg_one : integerWeight (-1 : ℚ) = 1 := by
  unfold integerWeight
  have hsum : ((-1 : ℚ) + 1 / 2) = -(1 / 2) := by norm_num
  rw [hsum]
  have hfloor : Int.floor (-(1 / 2 : ℚ)) = -1 := by
    rw [Int.floor_eq_iff]
    constructor <;> norm_num
  rw [hfloor]
  decide

/- ### Claim C7 -/

/-- Claim C7: for an edge whose target matches the current node and whose
source coordinate is resolved, the loop stores
`max(1, floor(raw + 0.5))` where the raw weight is `duration * 10` for the
duration types (independent of geometry) and
`(distance * 10) / (speed / 3.6)` for `SPEED` with positive speed. -/
theorem prepareEdges_weight_formula (dist : Int → Int → Int → Int → ℚ)
    (e : InternalExtractorEdge) (es : List InternalExtractorEdge)
    (n : ExternalMemoryNode) (ns : List ExternalMemoryNode)
    (htarget : e.result.target = n.node_id)
    (hlat : e.source_coordinate.lat ≠ INT_MIN)
    (hlon : e.source_coordinate.lon ≠ INT_MIN) :
    ∃ e₂, computeWeights dist (e :: es) (n :: ns) =
        e₂ :: computeWeights dist es (n :: ns) ∧
      e₂.result.weight =
        max 1 (Int.floor (edgeWeightLambda
          (dist e.source_coordinate.lat e.source_coordinate.lon n.lat n.lon)
          e.weight_data + 1 / 2)) ∧
      ((e.weight_data.type = WeightType.EDGE_DURATION ∨
          e.weight_data.type = WeightType.WAY_DURATION) →
        edgeWeightLambda
            (dist e.source_coordinate.lat e.source_coordinate.lon n.lat n.lon)
            e.weight_data =
          e.weight_data.duration * 10) ∧
      (e.weight_data.type = WeightType.SPEED → 0 < e.weight_data.speed →
        edgeWeightLambda
            (dist e.source_coordinate.lat e.source_coordinate.lon n.lat n.lon)
            e.weight_data =
          (dist e.source_coordinate.lat e.source_coordinate.lon n.lat n.lon * 10) /
            (e.weight_data.speed / 3.6)) := by
  refine ⟨setEdgeWeight dist e n,
    computeWeights_cons_match dist e es n ns htarget, ?_, ?_, ?_⟩
  · rw [setEdgeWeight_resolved dist e n hlat hlon]
    rfl
  · rintro (hty | hty) <;> simp [edgeWeightLambda, hty]
  · intro hty _
    simp [edgeWeightLambda, hty]


/-- Claim C7 witness: the weight formula at the concrete input above. -/
theorem prepareEdges_weight_formula_witness :
    (c7Edge.result.target = c7Node.node_id ∧
      c7Edge.source_coordinate.lat ≠ INT_MIN ∧
      c7Edge.source_coordinate.lon ≠ INT_MIN) ∧
    ∃ e₂, computeWeights c7Dist [c7Edge] [c7Node] =
        e₂ :: computeWeights c7Dist [] [c7Node] ∧
      e₂.result.weight =
        max 1 (Int.floor (edgeWeightLambda
          (c7Dist c7Edge.source_coordinate.lat c7Edge.source_coordinate.lon
            c7Node.lat c7Node.lon)
          c7Edge.weight_data + 1 / 2)) ∧
      ((c7Edge.weight_data.type = WeightType.EDGE_DURATION ∨
          c7Edge.weight_data.type = WeightType.WAY_DURATION) →
        edgeWeightLambda
            (c7Dist c7Edge.source_coordinate.lat c7Edge.source_coordinate.lon
              c7Node.lat c7Node.lon)
            c7Edge.weight_data =
          c7Edge.weight_data.duration * 10) ∧
      (c7Edge.weight_data.type = WeightType.SPEED → 0 < c7Edge.weight_data.speed →
        edgeWeightLambda
            (c7Dist c7Edge.source_coordinate.lat c7Edge.source_coordinate.lon
              c7Node.lat c7Node.lon)
            c7Edge.weight_data =
          (c7Dist c7Edge.source_coordinate.lat c7Edge.source_coordinate.lon
              c7Node.lat c7Node.lon * 10) /
            (c7Edge.weight_data.speed / 3.6)) :=
  ⟨⟨rfl, by decide, by decide⟩,
    prepareEdges_weight_formula c7Dist c7Edge [] c7Node [] rfl (by decide) (by decide)⟩

/- ### Claim C10 -/

/-- Claim C10: an edge that reaches the weight computation (matched target,
resolved source coordinate) with a weight type other than `SPEED`,
`EDGE_DURATION` and `WAY_DURATION` gets weight exactly 1 (the lambda falls
through to `-1.0` and `max(1, floor(-0.5)) = 1`), so the writer emits it and
counts it. -/
theorem unknown_weight_type_weight_one (dist : Int → Int → Int → Int → ℚ)
    (e : InternalExtractorEdge) (es : List InternalExtractorEdge)
    (n : ExternalMemoryNode) (ns : List ExternalMemoryNode)
    (htarget : e.result.target = n.node_id)
    (hlat : e.source_coordinate.lat ≠ INT_MIN)
    (hlon : e.source_coordinate.lon ≠ INT_MIN)
    (hty : e.weight_data.type ≠ WeightType.SPEED ∧
      e.weight_data.type ≠ WeightType.EDGE_DURATION ∧
      e.weight_data.type ≠ WeightType.WAY_DURATION) :
    ∃ e₂, computeWeights dist (e :: es) (n :: ns) =
        e₂ :: computeWeights dist es (n :: ns) ∧
      e₂.result.weight = 1 ∧
      (∀ rest, writeEdgesLoop (e₂ :: rest) = e₂.result :: writeEdgesLoop rest) ∧
      (∀ rest, number_of_used_edges (e₂ :: rest) = number_of_used_edges rest + 1) := by
  have hinv : e.weight_data.type = WeightType.INVALID := by
    rcases hcase : e.weight_data.type
    · exact absurd hcase hty.1
    · exact absurd hcase hty.2.1
    · exact absurd hcase hty.2.2
    · rfl
  have hlam : edgeWeightLambda
      (dist e.source_coordinate.lat e.source_coordinate.lon n.lat n.lon)
      e.weight_data = -1 := by
    simp [edgeWeightLambda, hinv]
  have hset : setEdgeWeight dist e n = withResultWeight e 1 := by
    rw [setEdgeWeight_resolved dist e n hlat hlon, hlam, integerWeight_neg_one]
  refine ⟨withResultWeight e 1, ?_, rfl, ?_, ?_⟩
  · rw [computeWeights_cons_match dist e es n ns htarget, hset]
  · intro rest
    simp [writeEdgesLoop, withResultWeight]
  · intro rest
    simp [number_of_used_edges, writeEdgesLoop, withResultWeight]


/-- Claim C10 witness: the fall-through weight at the concrete input
above. -/
theorem unknown_weight_type_weight_one_witness :
    (invalidWeightEdge.result.target = invalidWeightNode.node_id ∧
      invalidWeightEdge.source_coordinate.lat ≠ INT_MIN ∧
      invalidWeightEdge.source_coordinate.lon ≠ INT_MIN ∧
      invalidWeightEdge.weight_data.type ≠ WeightType.SPEED ∧
      invalidWeightEdge.weight_data.type ≠ WeightType.EDGE_DURATION ∧
      invalidWeightEdge.weight_data.type ≠ WeightType.WAY_DURATION) ∧
    ∃ e₂, computeWeights zeroDistance [invalidWeightEdge] [invalidWeightNode] =
        e₂ :: computeWeights zeroDistance [] [invalidWeightNode] ∧
      e₂.result.weight = 1 ∧
      (∀ rest, writeEdgesLoop (e₂ :: rest) = e₂.result :: writeEdgesLoop rest) ∧
      (∀ rest, number_of_used_edges (e₂ :: rest) = number_of_used_edges rest + 1) :=
  ⟨⟨rfl, by decide, by decide, by decide, by decide, by decide⟩,
    unknown_weight_type_weight_one zeroDistance invalidWeightEdge [] invalidWeightNode []
      rfl (by decide) (by decide) ⟨by decide, by decide, by decide⟩⟩

/- ### Claim C2 -/

/-- Claim C2 evaluation: the `default` arm of the weight `switch` constructs
`osrm::exception("invalid weight type")` without `throw` (line 244), so an
edge whose weight type is none of the recognized variants is not fatal: the
lambda returns `-1.0`, the edge gets weight 1, is written to the output file
and counted in `edge_count`. -/
theorem invalid_weight_descriptor_not_fatal :
    computeWeights zeroDistance [invalidWeightEdge] [invalidWeightNode] =
      [withResultWeight invalidWeightEdge 1] ∧
    writeEdgesLoop (computeWeights zeroDistance [invalidWeightEdge] [invalidWeightNode]) =
      [(withResultWeight invalidWeightEdge 1).result] ∧
    number_of_used_edges
      (computeWeights zeroDistance [invalidWeightEdge] [invalidWeightNode]) = 1 := by
  have hnil : computeWeights zeroDistance [] [invalidWeightNode] = [] := by
    simp only [computeWeights]
  have hset : setEdgeWeight zeroDistance invalidWeightEdge invalidWeightNode =
      withResultWeight invalidWeightEdge 1 := by
    rw [setEdgeWeight_resolved zeroDistance invalidWeightEdge invalidWeightNode
      (by decide) (by decide)]
    have hlam : edgeWeightLambda
        (zeroDistance invalidWeightEdge.source_coordinate.lat
          invalidWeightEdge.source_coordinate.lon
          invalidWeightNode.lat invalidWeightNode.lon)
        invalidWeightEdge.weight_data = -1 := rfl
    rw [hlam, integerWeight_neg_one]
  have hmain : computeWeights zeroDistance [invalidWeightEdge] [invalidWeightNode] =
      [withResultWeight invalidWeightEdge 1] := by
    rw [computeWeights_cons_match zeroDistance invalidWeightEdge [] invalidWeightNode []
      rfl, hnil, hset]
  refine ⟨hmain, ?_, ?_⟩
  · rw [hmain]
    simp [writeEdgesLoop, withResultWeight]
  · rw [hmain]
    simp [number_of_used_edges, writeEdgesLoop, withResultWeight]

/- ### Shared branch equations of the weight loop -/

/-- The weight loop on an exhausted edge cursor. -/
theorem computeWeights_nil_left (dist : Int → Int → Int → Int → ℚ)
    (ns : List ExternalMemoryNode) : computeWeights dist [] ns = [] := by
  simp only [computeWeights]

/-- The weight loop on an exhausted node cursor leaves the remaining edges
untouched. -/
theorem computeWeights_nil_right (dist : Int → Int → Int → Int → ℚ)
    (e : InternalExtractorEdge) (es : List InternalExtractorEdge) :
    computeWeights dist (e :: es) [] = e :: es := by
  simp only [computeWeights]

/-- The skipped-edge branch (the FIXME at line 214): an edge whose target is
below the current node id passes through unmodified. -/
theorem computeWeights_cons_lt (dist : Int → Int → Int → Int → ℚ)
    (e : InternalExtractorEdge) (es : List InternalExtractorEdge)
    (n : ExternalMemoryNode) (ns : List ExternalMemoryNode)
    (h : e.result.target < n.node_id) :
    computeWeights dist (e :: es) (n :: ns) = e :: computeWeights dist es (n :: ns) := by
  simp only [computeWeights]
  rw [if_pos h]

/-- The skipped-node branch: a node below the current target is consumed. -/
theorem computeWeights_cons_gt (dist : Int → Int → Int → Int → ℚ)
    (e : InternalExtractorEdge) (es : List InternalExtractorEdge)
    (n : ExternalMemoryNode) (ns : List ExternalMemoryNode)
    (h : n.node_id < e.result.target) :
    computeWeights dist (e :: es) (n :: ns) = computeWeights dist (e :: es) ns := by
  simp only [computeWeights]
  rw [if_neg (Nat.lt_asymm h), if_pos h]

/-- Every edge whose target occurs nowhere in the node list passes through
the weight loop unchanged (positionally). -/
theorem computeWeights_dangling_unchanged (dist : Int → Int → Int → Int → ℚ) :
    ∀ (es : List InternalExtractorEdge) (ns : List ExternalMemoryNode),
      List.Forall₂
        (fun a b => a.result.target ∉ ns.map ExternalMemoryNode.node_id → b = a)
        es (computeWeights dist es ns)
  | [], ns => by
    rw [computeWeights_nil_left]
    exact List.Forall₂.nil
  | e :: es, [] => by
    rw [computeWeights_nil_right]
    exact List.forall₂_same.mpr (fun a _ _ => rfl)
  | e :: es, n :: ns => by
    by_cases h1 : e.result.target < n.node_id
    · rw [computeWeights_cons_lt dist e es n ns h1]
      exact List.Forall₂.cons (fun _ => rfl)
        (computeWeights_dangling_unchanged dist es (n :: ns))
    · by_cases h2 : n.node_id < e.result.target
      · rw [computeWeights_cons_gt dist e es n ns h2]
        exact (computeWeights_dangling_unchanged dist (e :: es) ns).imp
          (fun a b hab hmem =>
            hab (fun hz => hmem (by rw [List.map_cons]; exact List.mem_cons_of_mem _ hz)))
      · have heq : e.result.target = n.node_id :=
          Nat.le_antisymm (Nat.not_lt.mp h2) (Nat.not_lt.mp h1)
        rw [computeWeights_cons_match dist e es n ns heq]
        refine List.Forall₂.cons ?_ (computeWeights_dangling_unchanged dist es (n :: ns))
        intro hmem
        exact absurd (by rw [List.map_cons, heq]; exact List.mem_cons_self _ _) hmem
  termination_by es ns => es.length + ns.length

/-- Splitting a `Forall₂` at a distinguished middle element of the left
list. -/
theorem forall₂_middle_split {α β : Type} {R : α → β → Prop} :
    ∀ (l₁ : List α) (a : α) (l₂ : List α) (u : List β),
      List.Forall₂ R (l₁ ++ a :: l₂) u →
      ∃ u₁ b u₂, u = u₁ ++ b :: u₂ ∧ u₁.length = l₁.length ∧ R a b
  | [], _, _, u => fun h => by
    rcases List.forall₂_cons_left_iff.mp h with ⟨b, u2, hr, _, rfl⟩
    exact ⟨[], b, u2, rfl, rfl, hr⟩
  | x :: l₁, a, l₂, u => fun h => by
    rcases List.forall₂_cons_left_iff.mp (by simpa using h) with ⟨b, u2, hr, htail, rfl⟩
    rcases forall₂_middle_split l₁ a l₂ u2 htail with ⟨u₁, b₂, u₂, rfl, hlen, hR⟩
    exact ⟨b :: u₁, b₂, u₂, rfl, by simp [hlen], hR⟩

/-- The edge writer distributes over concatenation. -/
theorem writeEdgesLoop_append (xs ys : List InternalExtractorEdge) :
    writeEdgesLoop (xs ++ ys) = writeEdgesLoop xs ++ writeEdgesLoop ys := by
  induction xs with
  | nil => rfl
  | cons x xs ih =>
    by_cases h : 0 < x.result.weight
    · simp [writeEdgesLoop, h, ih]
    · simp [writeEdgesLoop, h, ih]

/- ### Claim C8 -/

/-- Claim C8: an edge whose target occurs nowhere in the node list is
skipped by the weight merge-join without touching its weight (it keeps its
initial value 0), is not written by `WriteEdges` and is excluded from the
back-patched `edge_count`; the loop simply continues (no fatal error). -/
theorem dangling_edge_skipped (dist : Int → Int → Int → Int → ℚ)
    (es₁ es₂ : List InternalExtractorEdge) (e : InternalExtractorEdge)
    (ns : List ExternalMemoryNode)
    (htgt : e.result.target ∉ ns.map ExternalMemoryNode.node_id)
    (hw : e.result.weight = 0) :
    ∃ out₁ out₂,
      computeWeights dist (es₁ ++ e :: es₂) ns = out₁ ++ e :: out₂ ∧
      out₁.length = es₁.length ∧
      writeEdgesLoop (out₁ ++ e :: out₂) = writeEdgesLoop (out₁ ++ out₂) ∧
      number_of_used_edges (out₁ ++ e :: out₂) = number_of_used_edges (out₁ ++ out₂) := by
  obtain ⟨u₁, b, u₂, hsplit, hlen, hR⟩ :=
    forall₂_middle_split es₁ e es₂ _
      (computeWeights_dangling_unchanged dist (es₁ ++ e :: es₂) ns)
  have hbe : b = e := hR htgt
  subst hbe
  refine ⟨u₁, u₂, hsplit, hlen, ?_, ?_⟩
  · rw [writeEdgesLoop_append, writeEdgesLoop_append]
    congr 1
    simp [writeEdgesLoop, hw]
  · unfold number_of_used_edges
    rw [writeEdgesLoop_append, writeEdgesLoop_append]
    simp [writeEdgesLoop, hw]


/-- Claim C8 witness: the dangling edge at the concrete input above. -/
theorem dangling_edge_skipped_witness :
    (c8Edge.result.target ∉ [c8Node].map ExternalMemoryNode.node_id ∧
      c8Edge.result.weight = 0) ∧
    ∃ out₁ out₂,
      computeWeights zeroDistance ([] ++ c8Edge :: []) [c8Node] = out₁ ++ c8Edge :: out₂ ∧
      out₁.length = ([] : List InternalExtractorEdge).length ∧
      writeEdgesLoop (out₁ ++ c8Edge :: out₂) = writeEdgesLoop (out₁ ++ out₂) ∧
      number_of_used_edges (out₁ ++ c8Edge :: out₂) = number_of_used_edges (out₁ ++ out₂) :=
  ⟨⟨by decide, rfl⟩,
    dangling_edge_skipped zeroDistance [] [] c8Edge [c8Node] (by decide) rfl⟩

/- ### Shared branch equations of the restriction fix loop -/

/-- The fix loop on an exhausted restriction cursor. -/
theorem fixFromLoop_nil_right (ws : List FirstAndLastSegmentOfWay) :
    fixFromLoop ws [] = [] := by
  cases ws <;> simp only [fixFromLoop]

/-- The fix loop on an exhausted endpoint cursor leaves the restrictions
unchanged. -/
theorem fixFromLoop_nil_left (rs : List InputRestrictionContainer) :
    fixFromLoop [] rs = rs := by
  cases rs <;> simp only [fixFromLoop]

/-- The advance-endpoint branch of the fix loop. -/
theorem fixFromLoop_cons_lt (w : FirstAndLastSegmentOfWay)
    (ws : List FirstAndLastSegmentOfWay) (r : InputRestrictionContainer)
    (rs : List InputRestrictionContainer) (h : w.way_id < r.restriction.from_way) :
    fixFromLoop (w :: ws) (r :: rs) = fixFromLoop ws (r :: rs) := by
  simp only [fixFromLoop]
  rw [if_pos h]

/-- The advance-restriction branch of the fix loop: the skipped restriction
is kept unchanged. -/
theorem fixFromLoop_cons_gt (w : FirstAndLastSegmentOfWay)
    (ws : List FirstAndLastSegmentOfWay) (r : InputRestrictionContainer)
    (rs : List InputRestrictionContainer) (h : r.restriction.from_way < w.way_id) :
    fixFromLoop (w :: ws) (r :: rs) = r :: fixFromLoop (w :: ws) rs := by
  simp only [fixFromLoop]
  rw [if_neg (Nat.lt_asymm h), if_pos h]

/-- The equal-way-ids branch of the fix loop. -/
theorem fixFromLoop_cons_eq (w : FirstAndLastSegmentOfWay)
    (ws : List FirstAndLastSegmentOfWay) (r : InputRestrictionContainer)
    (rs : List InputRestrictionContainer) (h : r.restriction.from_way = w.way_id) :
    fixFromLoop (w :: ws) (r :: rs) = applyFromFix w r :: fixFromLoop (w :: ws) rs := by
  simp only [fixFromLoop]
  rw [if_neg (by rw [h]; exact lt_irrefl _), if_neg (by rw [h]; exact lt_irrefl _)]

/-- The fix loop preserves the `from.way` key of every restriction,
positionally. -/
theorem fixFromLoop_map_from_way :
    ∀ (ws : List FirstAndLastSegmentOfWay) (rs : List InputRestrictionContainer),
      (fixFromLoop ws rs).map (fun rc => rc.restriction.from_way) =
        rs.map (fun rc => rc.restriction.from_way)
  | ws, [] => by rw [fixFromLoop_nil_right]
  | [], r :: rs => by rw [fixFromLoop_nil_left]
  | w :: ws, r :: rs => by
    by_cases h1 : w.way_id < r.restriction.from_way
    · rw [fixFromLoop_cons_lt w ws r rs h1]
      exact fixFromLoop_map_from_way ws (r :: rs)
    · by_cases h2 : r.restriction.from_way < w.way_id
      · rw [fixFromLoop_cons_gt w ws r rs h2, List.map_cons, List.map_cons,
          fixFromLoop_map_from_way (w :: ws) rs]
      · have heq : r.restriction.from_way = w.way_id :=
          Nat.le_antisymm (Nat.not_lt.mp h1) (Nat.not_lt.mp h2)
        rw [fixFromLoop_cons_eq w ws r rs heq, List.map_cons, List.map_cons,
          fixFromLoop_map_from_way (w :: ws) rs, (applyFromFix_fields w r).1]
  termination_by ws rs => ws.length + rs.length

/-- The equal-way-ids body is idempotent: applying it twice against the
same endpoint record gives the same restriction as applying it once. -/
theorem applyFromFix_idem (w : FirstAndLastSegmentOfWay) (rc : InputRestrictionContainer) :
    applyFromFix w (applyFromFix w rc) = applyFromFix w rc := by
  by_cases h1 : w.first_segment_source_id = rc.restriction.via_node
  · have e1 : applyFromFix w rc =
        ⟨⟨rc.restriction.from_way, w.first_segment_target_id, rc.restriction.via_node,
          rc.restriction.to_way, rc.restriction.to_node, rc.restriction.is_only⟩⟩ := by
      unfold applyFromFix
      rw [if_pos h1]
    rw [e1]
    unfold applyFromFix
    dsimp only
    rw [if_pos h1]
  · by_cases h2 : w.last_segment_target_id = rc.restriction.via_node
    · have e1 : applyFromFix w rc =
          ⟨⟨rc.restriction.from_way, w.last_segment_source_id, rc.restriction.via_node,
            rc.restriction.to_way, rc.restriction.to_node, rc.restriction.is_only⟩⟩ := by
        unfold applyFromFix
        rw [if_neg h1, if_pos h2]
      rw [e1]
      unfold applyFromFix
      dsimp only
      rw [if_neg h1, if_pos h2]
    · have e1 : applyFromFix w rc = rc := by
        unfold applyFromFix
        rw [if_neg h1, if_neg h2]
      rw [e1, e1]

/-- The fix loop is idempotent on any pair of cursor lists. -/
theorem fixFromLoop_idem :
    ∀ (ws : List FirstAndLastSegmentOfWay) (rs : List InputRestrictionContainer),
      fixFromLoop ws (fixFromLoop ws rs) = fixFromLoop ws rs
  | ws, [] => by rw [fixFromLoop_nil_right, fixFromLoop_nil_right]
  | [], r :: rs => by rw [fixFromLoop_nil_left, fixFromLoop_nil_left]
  | w :: ws, r :: rs => by
    by_cases h1 : w.way_id < r.restriction.from_way
    · rw [fixFromLoop_cons_lt w ws r rs h1]
      have hmap := fixFromLoop_map_from_way ws (r :: rs)
      cases hout : fixFromLoop ws (r :: rs) with
      | nil => rw [fixFromLoop_nil_right]
      | cons o out2 =>
        rw [hout] at hmap
        simp only [List.map_cons] at hmap
        injection hmap with hhead _
        rw [fixFromLoop_cons_lt w ws o out2 (by rw [hhead]; exact h1)]
        rw [← hout]
        exact fixFromLoop_idem ws (r :: rs)
    · by_cases h2 : r.restriction.from_way < w.way_id
      · rw [fixFromLoop_cons_gt w ws r rs h2]
        rw [fixFromLoop_cons_gt w ws r (fixFromLoop (w :: ws) rs) h2]
        rw [fixFromLoop_idem (w :: ws) rs]
      · have heq : r.restriction.from_way = w.way_id :=
          Nat.le_antisymm (Nat.not_lt.mp h1) (Nat.not_lt.mp h2)
        rw [fixFromLoop_cons_eq w ws r rs heq]
        have heq2 : (applyFromFix w r).restriction.from_way = w.way_id := by
          rw [(applyFromFix_fields w r).1, heq]
        rw [fixFromLoop_cons_eq w ws (applyFromFix w r) (fixFromLoop (w :: ws) rs) heq2]
        rw [applyFromFix_idem, fixFromLoop_idem (w :: ws) rs]
  termination_by ws rs => ws.length + rs.length

/- ### Claim C9 -/

/-- Claim C9: Pass A of the restriction resolver is idempotent - running
the sort-then-merge pass a second time on the output of the first run
reproduces that output exactly, so every restriction receives the same
`from.node` assignment. -/
theorem passA_idempotent (ws : List FirstAndLastSegmentOfWay)
    (rs : List InputRestrictionContainer) :
    passA ws (passA ws rs) = passA ws rs := by
  unfold passA
  have hsortedRS : List.Sorted restrictionFromLe (List.insertionSort restrictionFromLe rs) :=
    List.sorted_insertionSort restrictionFromLe rs
  have hmap := fixFromLoop_map_from_way (List.insertionSort wayLe ws)
    (List.insertionSort restrictionFromLe rs)
  have hsortedOut : List.Sorted restrictionFromLe
      (fixFromLoop (List.insertionSort wayLe ws) (List.insertionSort restrictionFromLe rs)) := by
    have hpair : List.Pairwise (fun a b : Nat => a ≤ b)
        ((List.insertionSort restrictionFromLe rs).map
          (fun rc => rc.restriction.from_way)) :=
      List.pairwise_map.mpr hsortedRS
    rw [← hmap] at hpair
    have hp2 : List.Pairwise
        (fun a b : InputRestrictionContainer =>
          a.restriction.from_way ≤ b.restriction.from_way)
        (fixFromLoop (List.insertionSort wayLe ws)
          (List.insertionSort restrictionFromLe rs)) :=
      List.pairwise_map.mp hpair
    exact hp2
  rw [hsortedOut.insertionSort_eq]
  exact fixFromLoop_idem _ _

/- ### Shared facts for the node writer -/

/-- The node writer loop on an exhausted used-id cursor. -/
theorem writeNodesLoop_nil_left (ns : List ExternalMemoryNode) :
    writeNodesLoop [] ns = [] := by
  simp only [writeNodesLoop]

/-- The node writer loop on an exhausted node cursor. -/
theorem writeNodesLoop_nil_right (u : Nat) (us : List Nat) :
    writeNodesLoop (u :: us) [] = [] := by
  simp only [writeNodesLoop]

/-- The advance-used-id branch of the node writer loop. -/
theorem writeNodesLoop_cons_lt (u : Nat) (us : List Nat) (n : ExternalMemoryNode)
    (ns : List ExternalMemoryNode) (h : u < n.node_id) :
    writeNodesLoop (u :: us) (n :: ns) = writeNodesLoop us (n :: ns) := by
  simp only [writeNodesLoop]
  rw [if_pos h]

/-- The advance-node branch of the node writer loop. -/
theorem writeNodesLoop_cons_gt (u : Nat) (us : List Nat) (n : ExternalMemoryNode)
    (ns : List ExternalMemoryNode) (h : n.node_id < u) :
    writeNodesLoop (u :: us) (n :: ns) = writeNodesLoop (u :: us) ns := by
  simp only [writeNodesLoop]
  rw [if_neg (Nat.lt_asymm h), if_pos h]

/-- The equal-ids branch of the node writer loop: the record is written and
both cursors advance. -/
theorem writeNodesLoop_cons_eq (u : Nat) (us : List Nat) (n : ExternalMemoryNode)
    (ns : List ExternalMemoryNode) (h : u = n.node_id) :
    writeNodesLoop (u :: us) (n :: ns) = n :: writeNodesLoop us ns := by
  simp only [writeNodesLoop]
  rw [if_neg (by rw [h]; exact lt_irrefl _), if_neg (by rw [h]; exact lt_irrefl _)]

/-- Membership is invariant under adjacent-duplicate collapse. -/
theorem mem_uniqueAdj : ∀ (l : List Nat) (x : Nat), x ∈ uniqueAdj l ↔ x ∈ l
  | [], x => by simp [uniqueAdj]
  | [a], x => by simp [uniqueAdj]
  | a :: b :: rest, x => by
    by_cases h : a = b
    · rw [show uniqueAdj (a :: b :: rest) = uniqueAdj (b :: rest) from by
        simp [uniqueAdj, h]]
      rw [mem_uniqueAdj (b :: rest) x]
      subst h
      simp [List.mem_cons]
    · rw [show uniqueAdj (a :: b :: rest) = a :: uniqueAdj (b :: rest) from by
        simp [uniqueAdj, h]]
      simp only [List.mem_cons, mem_uniqueAdj (b :: rest) x]

/-- Collapsing adjacent duplicates of a weakly sorted list yields a strictly
sorted list. -/
theorem uniqueAdj_sorted_lt :
    ∀ (l : List Nat), l.Sorted (fun a b : Nat => a ≤ b) →
      (uniqueAdj l).Sorted (fun a b : Nat => a < b)
  | [] => fun _ => by simp [uniqueAdj]
  | [a] => fun _ => by simp [uniqueAdj]
  | a :: b :: rest => fun hs => by
    by_cases h : a = b
    · rw [show uniqueAdj (a :: b :: rest) = uniqueAdj (b :: rest) from by
        simp [uniqueAdj, h]]
      exact uniqueAdj_sorted_lt (b :: rest) hs.of_cons
    · rw [show uniqueAdj (a :: b :: rest) = a :: uniqueAdj (b :: rest) from by
        simp [uniqueAdj, h]]
      refine List.Pairwise.cons ?_ (uniqueAdj_sorted_lt (b :: rest) hs.of_cons)
      intro x hx
      have hxmem : x ∈ b :: rest := (mem_uniqueAdj (b :: rest) x).mp hx
      have hab : a < b :=
        lt_of_le_of_ne (List.rel_of_sorted_cons hs b (List.mem_cons_self b rest)) h
      rcases List.mem_cons.mp hxmem with rfl | hxr
      · exact hab
      · exact lt_of_lt_of_le hab (List.rel_of_sorted_cons hs.of_cons x hxr)

/-- On a strictly sorted used-id list and a weakly sorted node list, the
node writer emits one record per used id that occurs among the node ids. -/
theorem writeNodesLoop_length :
    ∀ (us : List Nat) (ns : List ExternalMemoryNode),
      us.Sorted (fun a b : Nat => a < b) →
      (ns.map ExternalMemoryNode.node_id).Sorted (fun a b : Nat => a ≤ b) →
      (writeNodesLoop us ns).length =
        (us.filter (fun u => decide (u ∈ ns.map ExternalMemoryNode.node_id))).length
  | [], ns => fun _ _ => by simp [writeNodesLoop_nil_left]
  | u :: us, [] => fun _ _ => by simp [writeNodesLoop_nil_right]
  | u :: us, n :: ns => fun hu hn => by
    have hn2 : (ns.map ExternalMemoryNode.node_id).Sorted (fun a b : Nat => a ≤ b) := by
      rw [List.map_cons] at hn
      exact hn.of_cons
    by_cases h1 : u < n.node_id
    · rw [writeNodesLoop_cons_lt u us n ns h1]
      have hnotmem : ¬u ∈ (n :: ns).map ExternalMemoryNode.node_id := by
        intro hmem
        rw [List.map_cons] at hmem
        rcases List.mem_cons.mp hmem with heq | hmem2
        · omega
        · have := List.rel_of_sorted_cons (by rw [List.map_cons] at hn; exact hn) u hmem2
          omega
      rw [List.filter_cons_of_neg (by simp only [decide_eq_true_eq]; exact hnotmem)]
      exact writeNodesLoop_length us (n :: ns) hu.of_cons hn
    · by_cases h2 : n.node_id < u
      · rw [writeNodesLoop_cons_gt u us n ns h2]
        have hcong : ∀ x ∈ u :: us,
            decide (x ∈ (n :: ns).map ExternalMemoryNode.node_id) =
              decide (x ∈ ns.map ExternalMemoryNode.node_id) := by
          intro x hx
          have hux : u ≤ x := by
            rcases List.mem_cons.mp hx with rfl | hxr
            · exact le_refl x
            · exact le_of_lt (List.rel_of_sorted_cons hu x hxr)
          have hne : x ≠ n.node_id := by omega
          apply decide_eq_decide.mpr
          rw [List.map_cons]
          simp [List.mem_cons, hne]
        rw [List.filter_congr hcong]
        exact writeNodesLoop_length (u :: us) ns hu hn2
      · have heq : u = n.node_id := Nat.le_antisymm (Nat.not_lt.mp h2) (Nat.not_lt.mp h1)
        rw [writeNodesLoop_cons_eq u us n ns heq]
        rw [List.filter_cons_of_pos (by
          simp only [decide_eq_true_eq, List.map_cons]
          exact List.mem_cons.mpr (Or.inl heq))]
        simp only [List.length_cons]
        have hcong : ∀ x ∈ us,
            decide (x ∈ (n :: ns).map ExternalMemoryNode.node_id) =
              decide (x ∈ ns.map ExternalMemoryNode.node_id) := by
          intro x hx
          have hne : x ≠ n.node_id := by
            have := List.rel_of_sorted_cons hu x hx
            omega
          apply decide_eq_decide.mpr
          rw [List.map_cons]
          simp [List.mem_cons, hne]
        rw [List.filter_congr hcong]
        rw [writeNodesLoop_length us ns hu.of_cons hn2]
  termination_by us ns => us.length + ns.length

/-- Counting a sorted merge intersection through finite sets: for a
duplicate-free list, filtering by membership in another list counts the
intersection of the two underlying sets. -/
theorem filter_length_eq_inter_card (l t : List Nat) (hl : l.Nodup) :
    (l.filter (fun u => decide (u ∈ t))).length = (l.toFinset ∩ t.toFinset).card := by
  induction l with
  | nil => simp
  | cons a l ih =>
    rw [List.nodup_cons] at hl
    by_cases hmem : a ∈ t
    · rw [List.filter_cons_of_pos (by simp [hmem])]
      rw [List.toFinset_cons, Finset.insert_inter_of_mem (List.mem_toFinset.mpr hmem)]
      rw [Finset.card_insert_of_not_mem
        (fun hin => hl.1 (List.mem_toFinset.mp (Finset.mem_inter.mp hin).1))]
      rw [List.length_cons, ih hl.2]
    · rw [List.filter_cons_of_neg (by simp [hmem])]
      rw [List.toFinset_cons,
        Finset.insert_inter_of_not_mem (fun hin => hmem (List.mem_toFinset.mp hin))]
      exact ih hl.2

/-- Sorting then collapsing duplicates does not change the set of used
ids. -/
theorem toFinset_prepareUsedNodeIds (used : List Nat) :
    (prepareUsedNodeIds used).toFinset = used.toFinset := by
  apply Finset.ext
  intro x
  simp only [List.mem_toFinset]
  unfold prepareUsedNodeIds
  rw [mem_uniqueAdj]
  exact (List.perm_insertionSort (fun a b : Nat => a ≤ b) used).mem_iff

/- ### Claim C3 -/

/-- Claim C3: the back-patched `node_count` equals the cardinality of the
intersection of the set of used node ids with the set of ids occurring in
the node list, for every raw input (duplicate used ids are collapsed by
`PrepareNodes`; duplicate node records are tolerated by the merge). -/
theorem node_count_eq_inter_card (used : List Nat) (nodes : List ExternalMemoryNode) :
    number_of_used_nodes used nodes =
      (used.toFinset ∩ (nodes.map ExternalMemoryNode.node_id).toFinset).card := by
  have hsortedU : (prepareUsedNodeIds used).Sorted (fun a b : Nat => a < b) :=
    uniqueAdj_sorted_lt _ (List.sorted_insertionSort (fun a b : Nat => a ≤ b) used)
  have hsortedN : ((prepareAllNodes nodes).map ExternalMemoryNode.node_id).Sorted
      (fun a b : Nat => a ≤ b) := by
    have hp : List.Pairwise nodeLe (prepareAllNodes nodes) :=
      List.sorted_insertionSort nodeLe nodes
    exact List.pairwise_map.mpr hp
  have hnodup : (prepareUsedNodeIds used).Nodup :=
    List.Pairwise.imp (fun hab => Nat.ne_of_lt hab) hsortedU
  unfold number_of_used_nodes writtenNodes
  rw [writeNodesLoop_length _ _ hsortedU hsortedN]
  rw [filter_length_eq_inter_card _ _ hnodup]
  rw [toFinset_prepareUsedNodeIds]
  have hperm : ((prepareAllNodes nodes).map ExternalMemoryNode.node_id).toFinset =
      (nodes.map ExternalMemoryNode.node_id).toFinset :=
    List.toFinset_eq_of_perm _ _
      ((List.perm_insertionSort nodeLe nodes).map ExternalMemoryNode.node_id)
  rw [hperm]

/- ### Shared facts for the name index -/

/-- Dropping past a prefix of known length. -/
theorem drop_len_append (x y : List Nat) (m : Nat) :
    (x ++ y).drop (x.length + m) = y.drop m := by
  rw [List.drop_append]

/-- The byte range the range table yields for index `i` cuts exactly the
clamped bytes of name `i` out of the blob. -/
theorem lookupName_spec :
    ∀ (names : List (List Nat)) (i : Nat), i < names.length →
      lookupName names i = (names.getD i []).take (clampedLength (names.getD i [])) ∧
      rangeTableLen names i = clampedLength (names.getD i [])
  | [], i, h => absurd h (Nat.not_lt_zero i)
  | s :: rest, 0, _ => by
    have hlen : (s.take (clampedLength s)).length = clampedLength s := by
      rw [List.length_take]
      unfold clampedLength
      omega
    constructor
    · unfold lookupName rangeTableOffset rangeTableLen nameLengths nameBlob
      simp only [List.map_cons, List.take_zero, List.sum_nil, List.drop_zero,
        List.getD_cons_zero, List.flatten_cons, List.getD_cons_zero]
      exact List.take_left' hlen
    · rfl
  | s :: rest, i + 1, h => by
    have h2 : i < rest.length := Nat.lt_of_succ_lt_succ h
    obtain ⟨ih1, ih2⟩ := lookupName_spec rest i h2
    have hlen : (s.take (clampedLength s)).length = clampedLength s := by
      rw [List.length_take]
      unfold clampedLength
      omega
    have hoff : rangeTableOffset (s :: rest) (i + 1) =
        clampedLength s + rangeTableOffset rest i := by
      unfold rangeTableOffset nameLengths
      rw [List.map_cons, List.take_succ_cons, List.sum_cons]
    have hlenEq : rangeTableLen (s :: rest) (i + 1) = rangeTableLen rest i := by
      unfold rangeTableLen nameLengths
      rw [List.map_cons, List.getD_cons_succ]
    have hblob : nameBlob (s :: rest) = s.take (clampedLength s) ++ nameBlob rest := by
      unfold nameBlob
      rw [List.map_cons, List.flatten_cons]
    constructor
    · unfold lookupName
      rw [hoff, hlenEq, hblob]
      rw [show clampedLength s + rangeTableOffset rest i =
          (s.take (clampedLength s)).length + rangeTableOffset rest i from by rw [hlen]]
      rw [drop_len_append]
      rw [List.getD_cons_succ]
      exact ih1
    · rw [hlenEq, List.getD_cons_succ]
      exact ih2

/- ### Claim C6 -/

/-- Claim C6: the name index stores each name's length clamped to
`min(length, 255)`, the total-length field is the sum of the clamped
lengths, and looking up index `i` through the range table over the
concatenated blob returns exactly the first `min(length, 255)` bytes of the
name interned at index `i`. -/
theorem writeNames_roundtrip (names : List (List Nat)) (i : Nat)
    (h : i < names.length) :
    lookupName names i = names[i].take (min names[i].length 255) ∧
    totalLength names = (names.map (fun s => min s.length 255)).sum ∧
    rangeTableLen names i = min names[i].length 255 := by
  obtain ⟨h1, h2⟩ := lookupName_spec names i h
  have hg : names.getD i [] = names[i] := List.getD_eq_getElem names [] h
  rw [hg] at h1 h2
  exact ⟨h1, rfl, h2⟩

/-- Claim C6 witness: a three-byte name at index 0 round-trips. -/
theorem writeNames_roundtrip_witness :
    0 < [[7, 8, 9]].length ∧
    (lookupName [[7, 8, 9]] 0 = [7, 8, 9].take (min ([7, 8, 9] : List Nat).length 255) ∧
      totalLength [[7, 8, 9]] =
        ([[7, 8, 9]].map (fun s : List Nat => min s.length 255)).sum ∧
      rangeTableLen [[7, 8, 9]] 0 = min ([7, 8, 9] : List Nat).length 255) :=
  ⟨by decide, writeNames_roundtrip [[7, 8, 9]] 0 (by decide)⟩
